import Mathlib

/-!
Shallow embedding of botorch/optim/optimize.py (functions optimize_acqf and
gen_batch_initial_conditions) and verification of its specification claims.

Tensors are modelled as nested lists of rationals:
a point is a list of d coordinates, a q-batch is a list of q points, and a
restart batch is a list of q-batches.  External collaborators (the Sobol
sampler, torch.rand, the initializer strategies initialize_q_batch and
initialize_q_batch_nonneg, and the scipy-based solver gen_candidates_scipy)
are parameters collected in a structure Ext.  The mutable pending-points
field X_pending of the acquisition function is threaded as explicit state,
and every access the Python code makes to that field (attribute read or
set_X_pending call), every sampler invocation, and every solver invocation
is recorded in an event trace, so that frame and fail-fast claims are
directly statable.  Exceptions are modelled with Except; the state resulting
from an aborted run is returned alongside the error, mirroring the fact that
a Python exception leaves the acquisition object in whatever state it had.
-/

namespace BoTorchOptim

/-- Coordinates and acquisition values are rationals (idealizing float64). -/
abbrev Point : Type := List ℚ

/-- A q-batch: a list of q points, the (q, d) axis pair of a tensor. -/
abbrev QBatch : Type := List Point

/-- A restart batch: a list of q-batches, the (restarts, q, d) axes. -/
abbrev RBatch : Type := List QBatch

/-- The X_pending state of the acquisition function: None or a tensor. -/
abbrev Pending : Type := Option QBatch

/-- Errors raised by the code: the NotImplementedError of the sequential
branch, or a failure propagating from the external solver. -/
inductive Err : Type
  | notImplemented : Err
  | solverFailure : Err
deriving DecidableEq, Repr

/-- Warnings surfaced to the caller: the SamplingWarning for excessive Sobol
dimension and the final BadInitialCandidatesWarning of the retry loop. -/
inductive Warn : Type
  | samplingW : Warn
  | badInitial : Warn
deriving DecidableEq, Repr

/-- Observable actions of the core: a sampler call, a solver call, a read of
the X_pending attribute, a set_X_pending call. -/
inductive Event : Type
  | sample : Event
  | solve : Event
  | readPending : Event
  | writePending : Event
deriving DecidableEq, Repr

/-- The 2 x d bounds tensor: a lower and an upper coordinate vector. -/
structure Bounds : Type where
  lower : List ℚ
  upper : List ℚ
deriving DecidableEq, Repr

/-- The acquisition function object: its evaluation (which may depend on the
pending points it currently conditions on), whether it is an
AnalyticAcquisitionFunction, and whether is_nonnegative holds of it. -/
structure AcqF : Type where
  eval : Pending → QBatch → ℚ
  analytic : Bool
  nonneg : Bool

/-- The options dictionary, restricted to the keys the code reads. -/
structure Options : Type where
  seed : Option Nat := none
  batch_limit : Option Nat := none
  nonnegative : Bool := false
  eta : Option ℚ := none
  alpha : Option ℚ := none

/-- External collaborators of the module, treated as opaque parameters:
draw_sobol_samples, torch.rand (a stream of unit-interval draws),
SobolEngine.MAXDIM, the debug setting, the two initializer strategies
(returning the selected restarts together with a flag recording whether a
BadInitialCandidatesWarning was raised during selection), and
gen_candidates_scipy (which sees the acquisition function, hence the
current pending state, and may fail). -/
structure Ext : Type where
  sobol : Bounds → Nat → Nat → Option Nat → RBatch
  rand : Option Nat → Nat → List ℚ
  maxdim : Nat
  debug : Bool
  initGen : Option ℚ → RBatch → List ℚ → Nat → RBatch × Bool
  initNonneg : Option ℚ → Option ℚ → RBatch → List ℚ → Nat → RBatch × Bool
  solver : Pending → RBatch → Except Err (RBatch × List ℚ)

/-- Split a list into consecutive chunks of size k (fuel-based recursion on
the length of the list); models a view reshaping a flat tensor. -/
def chunkEveryAux (k : Nat) : Nat → List ℚ → List (List ℚ)
  | 0, _ => []
  | _, [] => []
  | fuel + 1, l => l.take k :: chunkEveryAux k fuel (l.drop k)

/-- Split a flat list of scalars into consecutive chunks of size k. -/
def chunkEvery (k : Nat) (l : List ℚ) : List (List ℚ) :=
  chunkEveryAux k l.length l

/-- Group a list of points into consecutive q-batches of size k. -/
def groupEveryAux (k : Nat) : Nat → List Point → RBatch
  | 0, _ => []
  | _, [] => []
  | fuel + 1, l => l.take k :: groupEveryAux k fuel (l.drop k)

/-- Group a list of points into consecutive q-batches of size k. -/
def groupEvery (k : Nat) (l : List Point) : RBatch :=
  groupEveryAux k l.length l

/-- The affine rescaling bounds[0] + (bounds[1] - bounds[0]) * u applied
coordinatewise to a normalized point u, as in line 324 of the source. -/
def rescalePoint (bounds : Bounds) (u : Point) : Point :=
  (bounds.lower.zip (bounds.upper.zip u)).map
    (fun p => p.1 + (p.2.1 - p.1) * p.2.2)

/-- Lines 304-324 of the source: the sample-drawing step of one attempt.
If the effective dimension d * q is within the Sobol ceiling, use the
low-discrepancy sampler directly in bounds-space; otherwise draw n * d * q
iid unit-interval scalars, reshape them to (n, q, d), and rescale them
affinely into the bounds. -/
def drawSamples (ext : Ext) (bounds : Bounds) (q n : Nat) (seed : Option Nat) :
    RBatch :=
  let d := bounds.lower.length
  if d * q ≤ ext.maxdim then
    ext.sobol bounds n q seed
  else
    (groupEvery q (chunkEvery d (ext.rand seed (n * (d * q))))).map
      (fun b => b.map (rescalePoint bounds))

/-- Lines 325-335 of the source: evaluate the acquisition function on the raw
samples in consecutive sub-batches of at most blim rows, concatenating the
per-batch value tensors (the batched call is elementwise in the restart
axis, so a sub-batch evaluation is a map over its rows). -/
def scoreChunksAux (score : QBatch → ℚ) (X : RBatch) (blim : Nat) :
    Nat → Nat → List ℚ
  | 0, _ => []
  | fuel + 1, start =>
    if start < X.length then
      ((X.drop start).take (min (start + blim) X.length - start)).map score ++
        scoreChunksAux score X blim fuel (start + blim)
    else []

/-- Chunked scoring of the raw samples, starting at row 0. -/
def scoreChunks (score : QBatch → ℚ) (X : RBatch) (blim : Nat) : List ℚ :=
  scoreChunksAux score X blim X.length 0

/-- Result of one iteration of the sampling loop: the selected initial
conditions, the degenerate flag (a BadInitialCandidatesWarning was captured
during selection), and the batch limit in force after the iteration. -/
structure SampleOut : Type where
  bic : RBatch
  degen : Bool
  blim : Nat

/-- Lines 315-338 of the source: the body of the while loop of
gen_batch_initial_conditions.  Draws raw_samples * factor raw candidates,
defaults the batch limit to the number of raw candidates if it is unset,
scores the candidates in chunks, and delegates selection to the configured
initializer strategy. -/
def sampleOnce (ext : Ext) (score : QBatch → ℚ) (opts : Options)
    (bounds : Bounds) (q nr raw : Nat) (nonnegSel : Bool) (factor : Nat)
    (seed : Option Nat) (blim0 : Option Nat) : SampleOut :=
  let n := raw * factor
  let X := drawSamples ext bounds q n seed
  let blim := blim0.getD X.length
  let Y := scoreChunks score X blim
  let sel :=
    if nonnegSel then ext.initNonneg opts.eta opts.alpha X Y nr
    else ext.initGen opts.eta X Y nr
  ⟨sel.1, sel.2, blim⟩

/-- The max_factor constant of line 293 of the source. -/
def max_factor : Nat := 5

/-- Result of gen_batch_initial_conditions: the initial conditions, the
warnings surfaced to the caller, and the trace of (factor, seed) pairs of
the sampling attempts actually performed, in order. -/
structure GenOut : Type where
  bic : RBatch
  ws : List Warn
  trace : List (Nat × Option Nat)

/-- Lines 314-350 of the source: the while loop of
gen_batch_initial_conditions.  While factor < max_factor, perform one
sampling attempt; return its result if it is not degenerate, otherwise
increment factor (and the seed, when one was given) and retry.  When the
loop condition fails, warn BadInitialCandidatesWarning and return the last
computed batch.  The fuel argument only serves termination; it is set to
max_factor, which exceeds the number of loop iterations. -/
def genLoop (ext : Ext) (score : QBatch → ℚ) (opts : Options) (bounds : Bounds)
    (q nr raw : Nat) (nonnegSel : Bool) :
    Nat → Nat → Option Nat → Option Nat → RBatch →
      List (Nat × Option Nat) → GenOut
  | 0, _, _, _, lastBic, trace => ⟨lastBic, [Warn.badInitial], trace⟩
  | fuel + 1, factor, seed, blim, lastBic, trace =>
    if factor < max_factor then
      let s := sampleOnce ext score opts bounds q nr raw nonnegSel factor seed
        blim
      if s.degen then
        let factorN := if factor < max_factor then factor + 1 else factor
        let seedN :=
          if factor < max_factor then seed.map (· + 1) else seed
        genLoop ext score opts bounds q nr raw nonnegSel fuel factorN seedN
          (some s.blim) s.bic (trace ++ [(factor, seed)])
      else ⟨s.bic, [], trace ++ [(factor, seed)]⟩
    else ⟨lastBic, [Warn.badInitial], trace⟩

/-- Lines 254-350 of the source: gen_batch_initial_conditions.  Chooses the
initializer strategy from the nonnegative option and the is_nonnegative
property, treats q = None as 1 for the sampling dimension, emits the
SamplingWarning for excessive Sobol dimension only when the debug setting is
on, and runs the retry loop starting from factor 1 with the seed and batch
limit taken from the options. -/
def gen_batch_initial_conditions (ext : Ext) (acq : AcqF) (pending : Pending)
    (bounds : Bounds) (qOpt : Option Nat) (nr raw : Nat) (opts : Options) :
    GenOut :=
  let nonnegSel := opts.nonnegative || acq.nonneg
  let q := qOpt.getD 1
  let dim := bounds.lower.length * q
  let ws0 := if ext.maxdim < dim ∧ ext.debug then [Warn.samplingW] else []
  let r := genLoop ext (acq.eval pending) opts bounds q nr raw nonnegSel
    max_factor 1 opts.seed opts.batch_limit [] []
  ⟨r.bic, ws0 ++ r.ws, r.trace⟩

/-- Result returned by optimize_acqf.  Joint best-only mode returns one
q-batch together with a scalar value (integer indexing batch_candidates at
the best index drops the restart axis); the all-restarts mode returns the
full restart batch and one value per restart; the sequential mode returns
the concatenated q-batch and the stacked per-step values. -/
inductive Res : Type
  | best : QBatch → ℚ → Res
  | all : RBatch → List ℚ → Res
  | seq : QBatch → List ℚ → Res
deriving DecidableEq, Repr

/-- The shape profile of the candidate tensor carried by a result: the list
of axis lengths, read off the nesting (well-defined on wellformed
rectangular data). -/
def shapeOfRes : Res → List Nat
  | .best c _ => [c.length, (c.headD []).length]
  | .all t _ =>
    [t.length, (t.headD []).length, ((t.headD []).headD []).length]
  | .seq c _ => [c.length, (c.headD []).length]

/-- Lines 131-139 of the source: the initial conditions used by the joint
path, either supplied by the caller or generated, with q passed as None for
an analytic acquisition function.  The warnings and the sampler events of
the generation are returned alongside. -/
def theICs (ext : Ext) (acq : AcqF) (pending : Pending) (bounds : Bounds)
    (q nr raw : Nat) (opts : Options) (bicOpt : Option RBatch) :
    RBatch × List Warn × List Event :=
  match bicOpt with
  | some b => (b, [], [])
  | none =>
    let g := gen_batch_initial_conditions ext acq pending bounds
      (if acq.analytic then none else some q) nr raw opts
    (g.bic, g.ws, g.trace.map (fun _ => Event.sample))

/-- Lines 144-164 of the source: the while loop driving the external solver
over consecutive sub-batches of at most blim restarts, concatenating the
candidate and value tensors in sub-batch order.  A solver error aborts the
loop and propagates.  The fuel argument only serves termination and is set
to nr, which bounds the iteration count whenever blim is at least 1. -/
def solveChunksAux (ext : Ext) (pending : Pending) (bic : RBatch)
    (nr blim : Nat) : Nat → Nat → Except Err (RBatch × List ℚ) × List Event
  | 0, _ => (Except.ok ([], []), [])
  | fuel + 1, start =>
    if start < nr then
      let endIdx := min (start + blim) nr
      match ext.solver pending ((bic.drop start).take (endIdx - start)) with
      | Except.error e => (Except.error e, [Event.solve])
      | Except.ok cv =>
        let r := solveChunksAux ext pending bic nr blim fuel (start + blim)
        match r.1 with
        | Except.error e => (Except.error e, Event.solve :: r.2)
        | Except.ok cv2 =>
          (Except.ok (cv.1 ++ cv2.1, cv.2 ++ cv2.2), Event.solve :: r.2)
    else (Except.ok ([], []), [])

/-- The solver loop started at row 0 with fuel nr. -/
def solveChunks (ext : Ext) (pending : Pending) (bic : RBatch)
    (nr blim : Nat) : Except Err (RBatch × List ℚ) × List Event :=
  solveChunksAux ext pending bic nr blim nr 0

/-- Result of the joint computation up to (and including) post-processing:
the concatenated post-processed candidates and concatenated values, or the
propagated solver error; plus warnings and events. -/
structure JOut : Type where
  res : Except Err (RBatch × List ℚ)
  ws : List Warn
  evs : List Event

/-- Lines 168-169 of the source: apply the post-processing function to the
concatenated candidates when one is given. -/
def applyPPF (ppf : Option (RBatch → RBatch)) (t : RBatch) : RBatch :=
  match ppf with
  | some f => f t
  | none => t

/-- Lines 129-169 of the source: the joint path of optimize_acqf before
best-selection.  Obtains initial conditions (generating them when none are
supplied), reads batch_limit from the options defaulting to num_restarts,
runs the solver over sub-batches, and applies the post-processing function
to the concatenated candidates when one is given. -/
def jointRaw (ext : Ext) (acq : AcqF) (bounds : Bounds) (q nr raw : Nat)
    (opts : Options) (ppf : Option (RBatch → RBatch))
    (bicOpt : Option RBatch) (pending : Pending) : JOut :=
  let t := theICs ext acq pending bounds q nr raw opts bicOpt
  let blim := opts.batch_limit.getD nr
  let s := solveChunks ext pending t.1 nr blim
  match s.1 with
  | Except.error e => ⟨Except.error e, t.2.1, t.2.2 ++ s.2⟩
  | Except.ok cv =>
    ⟨Except.ok (applyPPF ppf cv.1, cv.2), t.2.1, t.2.2 ++ s.2⟩

/-- The largest element of a list of rationals (0 on the empty list). -/
def listMax : List ℚ → ℚ
  | [] => 0
  | [x] => x
  | x :: y :: t => max x (listMax (y :: t))

/-- Modelled from the spec: torch.argmax on a one-axis tensor.  The
tie-break on exact maximum-value ties is implementation-defined in the
numeric backend; the spec (section 9) fixes first-in-iteration-order as the
specified policy, which is what this function implements. -/
def argmaxIdx : List ℚ → Nat
  | [] => 0
  | [_] => 0
  | x :: y :: t =>
    if listMax (y :: t) ≤ x then 0 else argmaxIdx (y :: t) + 1

/-- Lines 171-173 of the source: indexing the concatenated candidate and
value tensors at the argmax of the flattened values. -/
def selectBest (bc : RBatch) (bv : List ℚ) : QBatch × ℚ :=
  (bc.getD (argmaxIdx bv) [], bv.getD (argmaxIdx bv) 0)

/-- Result of one sequential-loop run: the accumulated candidates and
values (or the propagated error), the pending state on exit, warnings, and
events. -/
structure SeqOut : Type where
  res : Except Err (QBatch × List ℚ)
  pending : Pending
  ws : List Warn
  evs : List Event

/-- Lines 101-124 of the source: the for loop of the sequential branch.
Each iteration solves the q = 1 joint problem with fresh initial conditions
and return_best_only forced (the sub-call inlines the joint path followed by
best-selection), appends the found candidate and value, and calls
set_X_pending with the saved base pending points concatenated with all
candidates found so far (just the candidates when the base is None).  An
error from the sub-call propagates immediately, leaving the pending state
as last set. -/
def seqLoop (ext : Ext) (acq : AcqF) (bounds : Bounds) (nr raw : Nat)
    (opts : Options) (ppf : Option (RBatch → RBatch)) (base : Pending) :
    Nat → QBatch → List ℚ → Pending → SeqOut
  | 0, cands, vals, pending => ⟨Except.ok (cands, vals), pending, [], []⟩
  | r + 1, cands, vals, pending =>
    let j := jointRaw ext acq bounds 1 nr raw opts ppf none pending
    match j.res with
    | Except.error e => ⟨Except.error e, pending, j.ws, j.evs⟩
    | Except.ok cv =>
      let sel := selectBest cv.1 cv.2
      let candsN := cands ++ sel.1
      let valsN := vals ++ [sel.2]
      let pendingN : Pending := some (match base with
        | some b => b ++ candsN
        | none => candsN)
      let rest := seqLoop ext acq bounds nr raw opts ppf base r candsN valsN
        pendingN
      ⟨rest.res, rest.pending, j.ws ++ rest.ws,
        j.evs ++ Event.writePending :: rest.evs⟩

/-- Result of optimize_acqf: the returned tensors (or the propagated
error), the pending state of the acquisition function after the call, the
warnings, and the event trace. -/
structure OptOut : Type where
  res : Except Err Res
  pending : Pending
  ws : List Warn
  evs : List Event

/-- Lines 26-175 of the source: optimize_acqf.  The sequential branch first
rejects return_best_only = False with NotImplementedError (before touching
any state), then reads and saves X_pending, runs the greedy loop, and on
normal completion restores X_pending to the saved base before returning the
concatenated candidates and stacked values; an error mid-loop propagates
without restoration.  The joint branch runs the joint computation and
either selects the best restart or returns all of them; it never touches
X_pending. -/
def optimize_acqf (ext : Ext) (acq : AcqF) (bounds : Bounds) (q nr raw : Nat)
    (opts : Options) (ppf : Option (RBatch → RBatch))
    (bicOpt : Option RBatch) (return_best_only sequential : Bool)
    (pending : Pending) : OptOut :=
  if sequential then
    if !return_best_only then
      ⟨Except.error Err.notImplemented, pending, [], []⟩
    else
      let base := pending
      let o := seqLoop ext acq bounds nr raw opts ppf base q [] [] pending
      match o.res with
      | Except.error e =>
        ⟨Except.error e, o.pending, o.ws, Event.readPending :: o.evs⟩
      | Except.ok cv =>
        ⟨Except.ok (Res.seq cv.1 cv.2), base, o.ws,
          Event.readPending :: o.evs ++ [Event.writePending]⟩
  else
    let j := jointRaw ext acq bounds q nr raw opts ppf bicOpt pending
    match j.res with
    | Except.error e => ⟨Except.error e, pending, j.ws, j.evs⟩
    | Except.ok cv =>
      if return_best_only then
        let sel := selectBest cv.1 cv.2
        ⟨Except.ok (Res.best sel.1 sel.2), pending, j.ws, j.evs⟩
      else ⟨Except.ok (Res.all cv.1 cv.2), pending, j.ws, j.evs⟩

/-! Wellformedness of tensors: rectangular shape predicates. -/

/-- A wellformed (q, d) candidate matrix: q points of d coordinates. -/
def Mat2 (q d : Nat) (b : QBatch) : Prop :=
  b.length = q ∧ ∀ p ∈ b, p.length = d

/-- A wellformed (n, q, d) restart batch. -/
def Mat3 (n q d : Nat) (t : RBatch) : Prop :=
  t.length = n ∧ ∀ b ∈ t, Mat2 q d b

instance (q d : Nat) (b : QBatch) : Decidable (Mat2 q d b) := by
  unfold Mat2; infer_instance

instance (n q d : Nat) (t : RBatch) : Decidable (Mat3 n q d t) := by
  unfold Mat3; infer_instance

/-! Concrete instantiations of the external collaborators, used to evaluate
the embedded program on explicit inputs. -/

/-- A simple deterministic environment: the sampler returns all-zero points,
the initializer keeps the first num_restarts raw candidates and never
signals degeneracy, and the solver returns its initial conditions with a
zero value each. -/
def extW : Ext where
  sobol := fun bounds n q _ =>
    List.replicate n (List.replicate q (List.replicate bounds.lower.length 0))
  rand := fun _ k => List.replicate k 0
  maxdim := 100
  debug := false
  initGen := fun _ X _ n => (X.take n, false)
  initNonneg := fun _ _ X _ n => (X.take n, false)
  solver := fun _ ch => Except.ok (ch, ch.map (fun _ => 0))

/-- A constant-zero, non-analytic, non-nonnegative acquisition function. -/
def acqW : AcqF := ⟨fun _ _ => 0, false, false⟩

/-- One-dimensional unit-interval bounds. -/
def boundsW : Bounds := ⟨[0], [1]⟩

/-- An environment whose solver succeeds while the pending state is None and
fails once pending points have been set: the second iteration of a
sequential run errors mid-loop. -/
def extBad : Ext := { extW with
  solver := fun p ch =>
    if p = none then Except.ok (ch, ch.map (fun _ => 0))
    else Except.error Err.solverFailure }

/-- An environment whose initializer strategies always signal degenerate
candidates, driving the retry loop to exhaustion. -/
def extDeg : Ext := { extW with
  initGen := fun _ X _ n => (X.take n, true)
  initNonneg := fun _ _ X _ n => (X.take n, true) }

/-- An environment with a Sobol ceiling of 2 and a non-trivial iid stream,
exercising the high-dimension fallback. -/
def extHi : Ext := { extW with
  maxdim := 2
  rand := fun _ k => (List.range k).map (fun i => (i : ℚ) / 10) }

/-- Two-dimensional bounds with distinct scales, exercising the affine
rescaling of the fallback sampler. -/
def boundsHi : Bounds := ⟨[0, 10], [1, 30]⟩

/-- An environment whose solver values each restart by the first coordinate
of its first point, producing distinct values and an exact tie. -/
def extVal : Ext := { extW with
  solver := fun _ ch =>
    Except.ok (ch, ch.map (fun b => ((b.headD []).headD 0))) }

/-! Properties of the first-maximum selection. -/

theorem listMax_cons_cons (x y : ℚ) (t : List ℚ) :
    listMax (x :: y :: t) = max x (listMax (y :: t)) := rfl

/-- The argmax index points at the maximum, is in bounds, and every
strictly earlier index holds a strictly smaller value. -/
theorem argmaxIdx_spec : (l : List ℚ) → l ≠ [] →
    l.getD (argmaxIdx l) 0 = listMax l ∧ argmaxIdx l < l.length ∧
      ∀ j < argmaxIdx l, l.getD j 0 < listMax l
  | [x], _ => by simp [argmaxIdx, listMax]
  | x :: y :: t, _ => by
    have ih := argmaxIdx_spec (y :: t) (by simp)
    by_cases h : listMax (y :: t) ≤ x
    · refine ⟨?_, ?_, ?_⟩
      · simp [argmaxIdx, h, listMax_cons_cons, max_eq_left h]
      · simp [argmaxIdx, h]
      · simp [argmaxIdx, h]
    · have hmax : listMax (x :: y :: t) = listMax (y :: t) := by
        rw [listMax_cons_cons]
        exact max_eq_right (not_le.mp h).le
      have hidx : argmaxIdx (x :: y :: t) = argmaxIdx (y :: t) + 1 := by
        simp [argmaxIdx, h]
      refine ⟨?_, ?_, ?_⟩
      · rw [hidx, List.getD_cons_succ, hmax]
        exact ih.1
      · rw [hidx]
        simpa using ih.2.1
      · intro j hj
        rw [hidx] at hj
        match j with
        | 0 =>
          rw [List.getD_cons_zero, hmax]
          exact not_le.mp h
        | k + 1 =>
          rw [List.getD_cons_succ, hmax]
          exact ih.2.2 k (by omega)

/-! Events and warnings emitted by the components. -/

/-- The initial-condition step only performs sampling. -/
theorem theICs_evs (ext : Ext) (acq : AcqF) (pending : Pending)
    (bounds : Bounds) (q nr raw : Nat) (opts : Options)
    (bicOpt : Option RBatch) :
    ∀ e ∈ (theICs ext acq pending bounds q nr raw opts bicOpt).2.2,
      e = Event.sample := by
  cases bicOpt <;> simp [theICs]

/-- The solver loop only performs solver calls. -/
theorem solveChunksAux_evs (ext : Ext) (pending : Pending) (bic : RBatch)
    (nr blim : Nat) :
    ∀ (fuel start : Nat),
      ∀ e ∈ (solveChunksAux ext pending bic nr blim fuel start).2,
        e = Event.solve := by
  intro fuel
  induction fuel with
  | zero => intro start e he; simp [solveChunksAux] at he
  | succ n ih =>
    intro start e he
    simp only [solveChunksAux] at he
    split at he
    · split at he
      · simp at he
        exact he
      · split at he
        · rcases List.mem_cons.mp he with h | h
          · exact h
          · exact ih _ e h
        · rcases List.mem_cons.mp he with h | h
          · exact h
          · exact ih _ e h
    · simp at he

/-- The joint computation only samples and solves. -/
theorem jointRaw_evs (ext : Ext) (acq : AcqF) (bounds : Bounds)
    (q nr raw : Nat) (opts : Options) (ppf : Option (RBatch → RBatch))
    (bicOpt : Option RBatch) (pending : Pending) :
    ∀ e ∈ (jointRaw ext acq bounds q nr raw opts ppf bicOpt pending).evs,
      e = Event.sample ∨ e = Event.solve := by
  intro e he
  simp only [jointRaw] at he
  split at he <;>
  · simp only [List.mem_append] at he
    rcases he with h | h
    · exact Or.inl (theICs_evs ext acq pending bounds q nr raw opts bicOpt e h)
    · exact Or.inr (solveChunksAux_evs ext pending _ nr _ nr 0 e h)

/-- The retry loop surfaces at most the exhaustion warning. -/
theorem genLoop_ws (ext : Ext) (score : QBatch → ℚ) (opts : Options)
    (bounds : Bounds) (q nr raw : Nat) (nonnegSel : Bool) :
    ∀ (fuel factor : Nat) (seed blim : Option Nat) (lastBic : RBatch)
      (trace : List (Nat × Option Nat)),
      (genLoop ext score opts bounds q nr raw nonnegSel fuel factor seed blim
          lastBic trace).ws = []
      ∨ (genLoop ext score opts bounds q nr raw nonnegSel fuel factor seed
          blim lastBic trace).ws = [Warn.badInitial] := by
  intro fuel
  induction fuel with
  | zero => intro factor seed blim lastBic trace; right; rfl
  | succ n ih =>
    intro factor seed blim lastBic trace
    simp only [genLoop]
    split
    · split
      · exact ih _ _ _ _ _
      · left; rfl
    · right; rfl

/-- The retry loop performs at most max_factor - factor further attempts. -/
theorem genLoop_trace_le (ext : Ext) (score : QBatch → ℚ) (opts : Options)
    (bounds : Bounds) (q nr raw : Nat) (nonnegSel : Bool) :
    ∀ (fuel factor : Nat) (seed blim : Option Nat) (lastBic : RBatch)
      (trace : List (Nat × Option Nat)),
      ((genLoop ext score opts bounds q nr raw nonnegSel fuel factor seed
          blim lastBic trace).trace).length
        ≤ trace.length + (max_factor - factor) := by
  intro fuel
  induction fuel with
  | zero =>
    intro factor seed blim lastBic trace
    exact Nat.le_add_right trace.length _
  | succ n ih =>
    intro factor seed blim lastBic trace
    simp only [genLoop]
    by_cases hf : factor < max_factor
    · simp only [hf, if_true]
      by_cases hd :
          (sampleOnce ext score opts bounds q nr raw nonnegSel factor seed
            blim).degen
      · simp only [hd, if_true]
        have := ih (factor + 1) (seed.map (· + 1))
          (some (sampleOnce ext score opts bounds q nr raw nonnegSel factor
            seed blim).blim)
          (sampleOnce ext score opts bounds q nr raw nonnegSel factor seed
            blim).bic
          (trace ++ [(factor, seed)])
        refine le_trans this ?_
        simp only [List.length_append, List.length_cons, List.length_nil]
        omega
      · rw [if_neg hd]
        show (trace ++ [(factor, seed)]).length
          ≤ trace.length + (max_factor - factor)
        simp only [List.length_append, List.length_cons, List.length_nil]
        omega
    · rw [if_neg hf]
      exact Nat.le_add_right trace.length _

/-!  The claims. -/

/-- C3: for every input, calling optimize_acqf with sequential = True and
return_best_only = False fails fast with the NotImplementedError before any
work is performed: the result is exactly the error, the pending-points
state is untouched, no warning is emitted, and the event trace is empty (no
sampling, no solver call, no read or write of the pending state). -/
theorem C3_fail_fast (ext : Ext) (acq : AcqF) (bounds : Bounds)
    (q nr raw : Nat) (opts : Options) (ppf : Option (RBatch → RBatch))
    (bicOpt : Option RBatch) (pending : Pending) :
    optimize_acqf ext acq bounds q nr raw opts ppf bicOpt false true pending
      = ⟨Except.error Err.notImplemented, pending, [], []⟩ := rfl

/-- C10: for every joint-mode call of optimize_acqf (sequential = False),
the pending-points state after the call equals the state before it, and the
event trace contains only sampler and solver calls — no read or write of
the pending-points field — regardless of return_best_only, of whether
initial conditions were supplied, and of whether the solver succeeds. -/
theorem C10_joint_frame (ext : Ext) (acq : AcqF) (bounds : Bounds)
    (q nr raw : Nat) (opts : Options) (ppf : Option (RBatch → RBatch))
    (bicOpt : Option RBatch) (rbo : Bool) (pending : Pending) :
    (optimize_acqf ext acq bounds q nr raw opts ppf bicOpt rbo false
        pending).pending = pending
    ∧ ∀ e ∈ (optimize_acqf ext acq bounds q nr raw opts ppf bicOpt rbo false
        pending).evs, e = Event.sample ∨ e = Event.solve := by
  have hevs := jointRaw_evs ext acq bounds q nr raw opts ppf bicOpt pending
  constructor
  · simp only [optimize_acqf, Bool.false_eq_true, if_false]
    split
    · rfl
    · split <;> rfl
  · intro e he
    simp only [optimize_acqf, Bool.false_eq_true, if_false] at he
    split at he
    · exact hevs e he
    · split at he <;> exact hevs e he

/-- C2 (amended): for every sequential-mode call of optimize_acqf that
completes normally, the pending-points state after the call equals the
state before it.  (The restoration is not exception-safe: when an inner
sub-call errors mid-loop the mutated state is left in place, see the
counterexample.) -/
theorem C2_seq_restores_on_success (ext : Ext) (acq : AcqF) (bounds : Bounds)
    (q nr raw : Nat) (opts : Options) (ppf : Option (RBatch → RBatch))
    (bicOpt : Option RBatch) (rbo : Bool) (pending : Pending) (r : Res)
    (h : (optimize_acqf ext acq bounds q nr raw opts ppf bicOpt rbo true
        pending).res = Except.ok r) :
    (optimize_acqf ext acq bounds q nr raw opts ppf bicOpt rbo true
        pending).pending = pending := by
  cases rbo with
  | false => exact absurd h (by simp [optimize_acqf])
  | true =>
    simp only [optimize_acqf, Bool.not_true, Bool.false_eq_true, if_false,
      if_true] at h ⊢
    split at h
    · exact absurd h (by simp)
    · rfl

/-- C2 witness: a concrete sequential run that completes normally and whose
pending state is restored to its initial value None. -/
theorem C2_seq_restores_witness :
    (optimize_acqf extW acqW boundsW 2 1 1 {} none none true true none).res
      = Except.ok (Res.seq [[0], [0]] [0, 0])
    ∧ (optimize_acqf extW acqW boundsW 2 1 1 {} none none true true
        none).pending = none :=
  ⟨rfl, C2_seq_restores_on_success extW acqW boundsW 2 1 1 {} none none
    true none (Res.seq [[0], [0]] [0, 0]) rfl⟩

/-- C2 counterexample: a sequential run whose second q = 1 sub-call raises a
solver error mid-loop exits with the pending state still mutated (some
[[0]]), not restored to the initial None: the claimed restoration on every
exit path fails on the code. -/
theorem C2_counterexample :
    (optimize_acqf extBad acqW boundsW 2 1 1 {} none none true true none).res
      = Except.error Err.solverFailure
    ∧ (optimize_acqf extBad acqW boundsW 2 1 1 {} none none true true
        none).pending = some [[0]]
    ∧ some [[0]] ≠ (none : Pending) := by
  refine ⟨rfl, rfl, by decide⟩

/-- When both initializer strategies always warn, every sampling attempt is
degenerate. -/
theorem sampleOnce_degen (ext : Ext) (score : QBatch → ℚ) (opts : Options)
    (bounds : Bounds) (q nr raw : Nat) (nonnegSel : Bool) (factor : Nat)
    (seed blim0 : Option Nat)
    (hdeg1 : ∀ e X Y n, (ext.initGen e X Y n).2 = true)
    (hdeg2 : ∀ e a X Y n, (ext.initNonneg e a X Y n).2 = true) :
    (sampleOnce ext score opts bounds q nr raw nonnegSel factor seed
      blim0).degen = true := by
  unfold sampleOnce
  by_cases h : nonnegSel <;> simp [h, hdeg1, hdeg2]

/-- The batch limit after an attempt: the incoming one, defaulted to the
number of raw samples drawn when it was unset. -/
theorem sampleOnce_blim (ext : Ext) (score : QBatch → ℚ) (opts : Options)
    (bounds : Bounds) (q nr raw : Nat) (nonnegSel : Bool) (factor : Nat)
    (seed blim0 : Option Nat) :
    (sampleOnce ext score opts bounds q nr raw nonnegSel factor seed
        blim0).blim
      = blim0.getD (drawSamples ext bounds q (raw * factor) seed).length :=
  rfl

/-- C4 (amended): when the initializer strategies signal degenerate
candidates on every attempt, the retry loop performs attempts with the
sample-count multiplier incremented by one each time and the seed (when one
was given) incremented by one each time, and the total number of sampling
attempts is capped at exactly 4 — the loop runs only while the multiplier
is strictly below the limit constant max_factor = 5 — not 5 as claimed. -/
theorem C4_retry_amended (ext : Ext) (acq : AcqF) (pending : Pending)
    (bounds : Bounds) (qOpt : Option Nat) (nr raw : Nat) (opts : Options)
    (s0 : Nat) (hs : opts.seed = some s0)
    (hdeg1 : ∀ e X Y n, (ext.initGen e X Y n).2 = true)
    (hdeg2 : ∀ e a X Y n, (ext.initNonneg e a X Y n).2 = true) :
    (gen_batch_initial_conditions ext acq pending bounds qOpt nr raw
        opts).trace
      = [(1, some s0), (2, some (s0 + 1)), (3, some (s0 + 2)),
         (4, some (s0 + 3))]
    ∧ ∀ (ext' : Ext) (acq' : AcqF) (pending' : Pending) (bounds' : Bounds)
        (qOpt' : Option Nat) (nr' raw' : Nat) (opts' : Options),
        ((gen_batch_initial_conditions ext' acq' pending' bounds' qOpt' nr'
            raw' opts').trace).length ≤ 4 := by
  have hsel : ∀ (factor : Nat) (seed blim0 : Option Nat),
      (sampleOnce ext (acq.eval pending) opts bounds (qOpt.getD 1) nr raw
        (opts.nonnegative || acq.nonneg) factor seed blim0).degen = true :=
    fun factor seed blim0 => sampleOnce_degen ext (acq.eval pending) opts
      bounds (qOpt.getD 1) nr raw (opts.nonnegative || acq.nonneg) factor
      seed blim0 hdeg1 hdeg2
  constructor
  · simp [gen_batch_initial_conditions, hs, max_factor, genLoop, hsel]
  · intro ext' acq' pending' bounds' qOpt' nr' raw' opts'
    have h := genLoop_trace_le ext' (acq'.eval pending') opts' bounds'
      (qOpt'.getD 1) nr' raw' (opts'.nonnegative || acq'.nonneg) max_factor
      1 opts'.seed opts'.batch_limit [] []
    simpa [gen_batch_initial_conditions, max_factor] using h

/-- C4 witness: with the always-degenerate environment and seed 10 the four
attempts use multipliers 1 to 4 and seeds 10 to 13. -/
theorem C4_retry_witness :
    ({seed := some 10} : Options).seed = some 10
    ∧ (∀ e X Y n, (extDeg.initGen e X Y n).2 = true)
    ∧ (gen_batch_initial_conditions extDeg acqW none boundsW (some 1) 1 2
        {seed := some 10}).trace
      = [(1, some 10), (2, some 11), (3, some 12), (4, some 13)] :=
  ⟨rfl, fun _ _ _ _ => rfl,
    (C4_retry_amended extDeg acqW none boundsW (some 1) 1 2 {seed := some 10}
      10 rfl (fun _ _ _ _ => rfl) (fun _ _ _ _ _ => rfl)).1⟩

/-- C4 counterexample: a run in which every sampling attempt is degenerate
exhausts the retry limit (the exhaustion warning is emitted) after exactly
4 sampling attempts, not the 5 attempts the claim states. -/
theorem C4_counterexample :
    (gen_batch_initial_conditions extDeg acqW none boundsW (some 1) 1 2
        {seed := some 10}).trace.length = 4
    ∧ Warn.badInitial ∈ (gen_batch_initial_conditions extDeg acqW none
        boundsW (some 1) 1 2 {seed := some 10}).ws
    ∧ (gen_batch_initial_conditions extDeg acqW none boundsW (some 1) 1 2
        {seed := some 10}).trace.length ≠ 5 := by
  refine ⟨by decide, by decide, by decide⟩

/-- C5: when every sampling attempt yields degenerate candidates, the
function surfaces the BadInitialCandidatesWarning diagnostic and returns
the batch computed by the last (fourth) attempt — a soft failure with no
exception (the embedded function is total and its result carries no error
case). -/
theorem C5_degenerate_soft (ext : Ext) (acq : AcqF) (pending : Pending)
    (bounds : Bounds) (qOpt : Option Nat) (nr raw : Nat) (opts : Options)
    (s0 : Nat) (hs : opts.seed = some s0)
    (hdeg1 : ∀ e X Y n, (ext.initGen e X Y n).2 = true)
    (hdeg2 : ∀ e a X Y n, (ext.initNonneg e a X Y n).2 = true) :
    Warn.badInitial ∈ (gen_batch_initial_conditions ext acq pending bounds
        qOpt nr raw opts).ws
    ∧ (gen_batch_initial_conditions ext acq pending bounds qOpt nr raw
        opts).bic
      = (sampleOnce ext (acq.eval pending) opts bounds (qOpt.getD 1) nr raw
          (opts.nonnegative || acq.nonneg) 4 (some (s0 + 3))
          (some (opts.batch_limit.getD
            (drawSamples ext bounds (qOpt.getD 1) raw
              (some s0)).length))).bic := by
  have hsel : ∀ (factor : Nat) (seed blim0 : Option Nat),
      (sampleOnce ext (acq.eval pending) opts bounds (qOpt.getD 1) nr raw
        (opts.nonnegative || acq.nonneg) factor seed blim0).degen = true :=
    fun factor seed blim0 => sampleOnce_degen ext (acq.eval pending) opts
      bounds (qOpt.getD 1) nr raw (opts.nonnegative || acq.nonneg) factor
      seed blim0 hdeg1 hdeg2
  constructor
  · simp [gen_batch_initial_conditions, hs, max_factor, genLoop, hsel]
  · simp [gen_batch_initial_conditions, hs, max_factor, genLoop, hsel,
      sampleOnce_blim]

/-- C5 witness: the always-degenerate run surfaces the diagnostic and
returns the (degenerate) batch of the last attempt. -/
theorem C5_degenerate_witness :
    (∀ e X Y n, (extDeg.initGen e X Y n).2 = true)
    ∧ Warn.badInitial ∈ (gen_batch_initial_conditions extDeg acqW none
        boundsW (some 1) 1 2 {seed := some 10}).ws
    ∧ (gen_batch_initial_conditions extDeg acqW none boundsW (some 1) 1 2
        {seed := some 10}).bic = [[[0]]] :=
  ⟨fun _ _ _ _ => rfl,
    (C5_degenerate_soft extDeg acqW none boundsW (some 1) 1 2
      {seed := some 10} 10 rfl (fun _ _ _ _ => rfl)
      (fun _ _ _ _ _ => rfl)).1,
    (C5_degenerate_soft extDeg acqW none boundsW (some 1) 1 2
      {seed := some 10} 10 rfl (fun _ _ _ _ => rfl)
      (fun _ _ _ _ _ => rfl)).2⟩

/-- Coordinatewise form of the affine rescaling: coordinate i of the
rescaled point is lower[i] + (upper[i] - lower[i]) * u[i]. -/
theorem rescalePoint_getD (bounds : Bounds) (u : Point) (i : Nat)
    (hub : bounds.upper.length = bounds.lower.length)
    (hui : u.length = bounds.lower.length)
    (hi : i < bounds.lower.length) :
    (rescalePoint bounds u).getD i 0
      = bounds.lower.getD i 0
        + (bounds.upper.getD i 0 - bounds.lower.getD i 0) * u.getD i 0 := by
  have hzu : (bounds.upper.zip u).length = bounds.lower.length := by
    rw [List.length_zip, hub, hui]
    exact min_self _
  have hz : (bounds.lower.zip (bounds.upper.zip u)).length
      = bounds.lower.length := by
    rw [List.length_zip, hzu]
    exact min_self _
  have hlen : i < (rescalePoint bounds u).length := by
    unfold rescalePoint
    rw [List.length_map, hz]
    exact hi
  rw [List.getD_eq_getElem _ 0 hlen,
    List.getD_eq_getElem _ 0 hi,
    List.getD_eq_getElem _ 0 (hub ▸ hi),
    List.getD_eq_getElem _ 0 (hui ▸ hi)]
  unfold rescalePoint
  rw [List.getElem_map]
  rw [List.getElem_zip, List.getElem_zip]

/-- C6 (amended): when the effective sampling dimension d * q exceeds the
Sobol ceiling, sampling falls back to iid unit-interval draws reshaped and
affinely rescaled into the bounds, and the diagnostic SamplingWarning is
emitted exactly when the debug setting is on (not unconditionally, as
claimed); within the ceiling the low-discrepancy sampler is used directly.
In neither case is the condition fatal. -/
theorem C6_dim_fallback_amended (ext : Ext) (acq : AcqF) (pending : Pending)
    (bounds : Bounds) (qOpt : Option Nat) (nr raw : Nat) (opts : Options)
    (hub : bounds.upper.length = bounds.lower.length) :
    ((bounds.lower.length * qOpt.getD 1 ≤ ext.maxdim) →
       ∀ (n : Nat) (seed : Option Nat),
         drawSamples ext bounds (qOpt.getD 1) n seed
           = ext.sobol bounds n (qOpt.getD 1) seed)
    ∧ (ext.maxdim < bounds.lower.length * qOpt.getD 1 →
         ∀ (n : Nat) (seed : Option Nat),
           drawSamples ext bounds (qOpt.getD 1) n seed
             = (groupEvery (qOpt.getD 1) (chunkEvery bounds.lower.length
                 (ext.rand seed
                   (n * (bounds.lower.length * qOpt.getD 1))))).map
                 (fun b => b.map (rescalePoint bounds)))
    ∧ (∀ (u : Point) (i : Nat), u.length = bounds.lower.length →
         i < bounds.lower.length →
         (rescalePoint bounds u).getD i 0
           = bounds.lower.getD i 0
             + (bounds.upper.getD i 0 - bounds.lower.getD i 0)
               * u.getD i 0)
    ∧ (Warn.samplingW ∈ (gen_batch_initial_conditions ext acq pending bounds
          qOpt nr raw opts).ws
         ↔ ext.maxdim < bounds.lower.length * qOpt.getD 1
           ∧ ext.debug = true) := by
  refine ⟨?_, ?_, ?_, ?_⟩
  · intro h n seed
    simp [drawSamples, h]
  · intro h n seed
    simp [drawSamples, not_le.mpr h]
  · intro u i hui hi
    exact rescalePoint_getD bounds u i hub hui hi
  · rcases genLoop_ws ext (acq.eval pending) opts bounds (qOpt.getD 1) nr
      raw (opts.nonnegative || acq.nonneg) max_factor 1 opts.seed
      opts.batch_limit [] [] with hws | hws <;>
    · by_cases hc : ext.maxdim < bounds.lower.length * qOpt.getD 1
        ∧ ext.debug = true
      · simp [gen_batch_initial_conditions, hws, hc]
      · simp [gen_batch_initial_conditions, hws, hc]

/-- C6 witness: with a two-dimensional q = 2 problem over a ceiling of 2
and debug on, the fallback kicks in, the rescaling is affine, and the
diagnostic is present. -/
theorem C6_dim_fallback_witness :
    boundsHi.upper.length = boundsHi.lower.length
    ∧ (2 < boundsHi.lower.length * 2 →
        ∀ (n : Nat) (seed : Option Nat),
          drawSamples extHi boundsHi 2 n seed
            = (groupEvery 2 (chunkEvery boundsHi.lower.length
                (extHi.rand seed (n * (boundsHi.lower.length * 2))))).map
                (fun b => b.map (rescalePoint boundsHi)))
    ∧ (Warn.samplingW ∈ (gen_batch_initial_conditions
          { extHi with debug := true } acqW none boundsHi (some 2) 1 1
          {}).ws
        ↔ ({ extHi with debug := true } : Ext).maxdim
            < boundsHi.lower.length * (some 2 : Option Nat).getD 1
          ∧ ({ extHi with debug := true } : Ext).debug = true) :=
  ⟨rfl,
    (C6_dim_fallback_amended extHi acqW none boundsHi (some 2) 1 1 {}
      rfl).2.1,
    (C6_dim_fallback_amended { extHi with debug := true } acqW none boundsHi
      (some 2) 1 1 {} rfl).2.2.2⟩

/-- C6 counterexample: with the debug setting off, a run whose sampling
dimension 4 exceeds the ceiling 2 (so the iid fallback is taken) surfaces
no diagnostic at all, contradicting the claim that the diagnostic is
emitted whenever the dimension exceeds the ceiling. -/
theorem C6_counterexample :
    extHi.maxdim < boundsHi.lower.length * 2
    ∧ Warn.samplingW ∉ (gen_batch_initial_conditions extHi acqW none
        boundsHi (some 2) 1 1 {}).ws := by
  refine ⟨by decide, by decide⟩

/-- C1: in joint mode with return_best_only = True, whenever the joint
computation succeeds with concatenated (post-processed) candidates bc and
concatenated per-restart values bv, the returned value is the maximum of
bv and the returned candidate is the entry of bc at the first index
achieving that maximum in restart/sub-batch concatenation order. -/
theorem C1_joint_best_max (ext : Ext) (acq : AcqF) (bounds : Bounds)
    (q nr raw : Nat) (opts : Options) (ppf : Option (RBatch → RBatch))
    (bicOpt : Option RBatch) (pending : Pending) (bc : RBatch)
    (bv : List ℚ)
    (hok : (jointRaw ext acq bounds q nr raw opts ppf bicOpt pending).res
      = Except.ok (bc, bv))
    (hne : bv ≠ []) :
    ∃ i, (optimize_acqf ext acq bounds q nr raw opts ppf bicOpt true false
        pending).res = Except.ok (Res.best (bc.getD i []) (listMax bv))
      ∧ i < bv.length
      ∧ bv.getD i 0 = listMax bv
      ∧ ∀ j < i, bv.getD j 0 < listMax bv := by
  obtain ⟨h1, h2, h3⟩ := argmaxIdx_spec bv hne
  refine ⟨argmaxIdx bv, ?_, h2, h1, h3⟩
  simp only [optimize_acqf, Bool.false_eq_true, if_false, if_true]
  split
  · rename_i e heq
    rw [hok] at heq
    cases heq
  · rename_i cv heq
    rw [hok] at heq
    injection heq with heq2
    subst heq2
    show Except.ok (Res.best (bc.getD (argmaxIdx bv) [])
      (bv.getD (argmaxIdx bv) 0)) = _
    rw [h1]

/-- C1 witness: three restarts with values 1, 3, 3: the best value is 3 and
the returned candidate is the one at index 1, the first of the two exact
ties in restart order. -/
theorem C1_joint_best_witness :
    (jointRaw extVal acqW boundsW 1 3 1 {} none
        (some [[[1]], [[3]], [[3]]]) none).res
      = Except.ok ([[[1]], [[3]], [[3]]], [1, 3, 3])
    ∧ ([1, 3, 3] : List ℚ) ≠ []
    ∧ ∃ i, (optimize_acqf extVal acqW boundsW 1 3 1 {} none
          (some [[[1]], [[3]], [[3]]]) true false none).res
        = Except.ok (Res.best (([[[1]], [[3]], [[3]]] : RBatch).getD i [])
            (listMax [1, 3, 3]))
      ∧ i < ([1, 3, 3] : List ℚ).length
      ∧ ([1, 3, 3] : List ℚ).getD i 0 = listMax [1, 3, 3]
      ∧ ∀ j < i, ([1, 3, 3] : List ℚ).getD j 0 < listMax [1, 3, 3] :=
  ⟨rfl, by decide,
    C1_joint_best_max extVal acqW boundsW 1 3 1 {} none
      (some [[[1]], [[3]], [[3]]]) none [[[1]], [[3]], [[3]]] [1, 3, 3] rfl
      (by decide)⟩

/-- C9 (amended): for q = 1, whenever the q = 1 joint computation (with
regenerated initial conditions, which is what the sequential path always
uses, ignoring any supplied batch of initial conditions) succeeds, the
sequential mode returns the same candidate as joint best-only mode, and its
value tensor is the one-element stack of the joint scalar value — the two
results differ in the value axis (a length-one tensor versus a scalar). -/
theorem C9_q1_amended (ext : Ext) (acq : AcqF) (bounds : Bounds)
    (nr raw : Nat) (opts : Options) (ppf : Option (RBatch → RBatch))
    (bicOpt : Option RBatch) (pending : Pending) (bc : RBatch)
    (bv : List ℚ)
    (hok : (jointRaw ext acq bounds 1 nr raw opts ppf none pending).res
      = Except.ok (bc, bv)) :
    (optimize_acqf ext acq bounds 1 nr raw opts ppf bicOpt true true
        pending).res
      = Except.ok (Res.seq (selectBest bc bv).1 [(selectBest bc bv).2])
    ∧ (optimize_acqf ext acq bounds 1 nr raw opts ppf none true false
        pending).res
      = Except.ok (Res.best (selectBest bc bv).1 (selectBest bc bv).2) := by
  constructor
  · simp [optimize_acqf, seqLoop, hok]
  · simp only [optimize_acqf, Bool.false_eq_true, if_false, if_true]
    split
    · rename_i e heq
      rw [hok] at heq
      cases heq
    · rename_i cv heq
      rw [hok] at heq
      injection heq with heq2
      subst heq2
      rfl

/-- C9 witness: a concrete deterministic q = 1 run in both modes. -/
theorem C9_q1_witness :
    (jointRaw extW acqW boundsW 1 1 1 {} none none none).res
      = Except.ok ([[[0]]], [0])
    ∧ (optimize_acqf extW acqW boundsW 1 1 1 {} none none true true
        none).res
      = Except.ok (Res.seq (selectBest [[[0]]] [0]).1
          [(selectBest [[[0]]] [0]).2])
    ∧ (optimize_acqf extW acqW boundsW 1 1 1 {} none none true false
        none).res
      = Except.ok (Res.best (selectBest [[[0]]] [0]).1
          (selectBest [[[0]]] [0]).2) :=
  ⟨rfl,
    (C9_q1_amended extW acqW boundsW 1 1 {} none none none [[[0]]] [0]
      rfl).1,
    (C9_q1_amended extW acqW boundsW 1 1 {} none none none [[[0]]] [0]
      rfl).2⟩

/-- C9 counterexample: at q = 1 on identical deterministic inputs the two
modes do not return the same values: the sequential result is a length-one
value tensor while the joint best-only result is a scalar, so the returned
objects are unequal. -/
theorem C9_counterexample :
    (optimize_acqf extW acqW boundsW 1 1 1 {} none none true true none).res
      = Except.ok (Res.seq [[0]] [0])
    ∧ (optimize_acqf extW acqW boundsW 1 1 1 {} none none true false
        none).res = Except.ok (Res.best [[0]] 0)
    ∧ (optimize_acqf extW acqW boundsW 1 1 1 {} none none true true
        none).res
      ≠ (optimize_acqf extW acqW boundsW 1 1 1 {} none none true false
        none).res := by
  have h1 : (optimize_acqf extW acqW boundsW 1 1 1 {} none none true true
      none).res = Except.ok (Res.seq [[0]] [0]) := rfl
  have h2 : (optimize_acqf extW acqW boundsW 1 1 1 {} none none true false
      none).res = Except.ok (Res.best [[0]] 0) := rfl
  refine ⟨h1, h2, ?_⟩
  rw [h1, h2]
  simp

/-- A sub-batch slice followed by the remaining slice covers the whole
remaining range: the decomposition behind the chunked solver loop. -/
theorem slice_split (l : RBatch) (start blim nr : Nat) (hs : start < nr)
    (hb : 1 ≤ blim) :
    (l.drop start).take (min (start + blim) nr - start)
        ++ (l.drop (start + blim)).take (nr - (start + blim))
      = (l.drop start).take (nr - start) := by
  by_cases hc : start + blim ≤ nr
  · have h1 : min (start + blim) nr - start = blim := by omega
    have h2 : nr - start = blim + (nr - (start + blim)) := by omega
    rw [h1, h2, List.take_add, List.drop_drop]
  · have h1 : min (start + blim) nr - start = nr - start := by omega
    have h2 : nr - (start + blim) = 0 := by omega
    rw [h1, h2]
    simp

/-- With a solver that maps each restart independently, the chunked solver
loop returns exactly the image of the remaining restarts, in order,
whatever the batch limit. -/
theorem solveChunksAux_map (ext : Ext) (pending : Pending) (ics : RBatch)
    (nr blim : Nat) (fc : QBatch → QBatch) (fv : QBatch → ℚ)
    (hsolver : ∀ p ch, ext.solver p ch = Except.ok (ch.map fc, ch.map fv))
    (hblim : 1 ≤ blim) :
    ∀ (fuel start : Nat), nr - start ≤ fuel →
      (solveChunksAux ext pending ics nr blim fuel start).1
        = Except.ok (((ics.drop start).take (nr - start)).map fc,
            ((ics.drop start).take (nr - start)).map fv) := by
  intro fuel
  induction fuel with
  | zero =>
    intro start h
    have hns : nr - start = 0 := by omega
    rw [hns]
    simp [solveChunksAux]
  | succ n ih =>
    intro start h
    by_cases hs : start < nr
    · have hrec := ih (start + blim) (by omega)
      simp only [solveChunksAux, hs, if_true, hsolver, hrec]
      rw [← List.map_append, ← List.map_append, slice_split ics start blim
        nr hs hblim]
    · have hns : nr - start = 0 := by omega
      rw [hns]
      simp [solveChunksAux, hs]

/-- C8: over the same fixed initial conditions and a deterministic solver
that treats each restart independently, running the joint computation with
batch_limit = num_restarts (a single sub-batch) and with batch_limit = 1
(num_restarts sub-batches) yields identical concatenated candidate and
value tensors; moreover the common result is the image of the initial
conditions in index order — sub-batches are processed and concatenated in
increasing index order. -/
theorem C8_chunking_invariant (ext : Ext) (acq : AcqF) (bounds : Bounds)
    (q nr raw : Nat) (opts : Options) (ppf : Option (RBatch → RBatch))
    (pending : Pending) (ics : RBatch) (fc : QBatch → QBatch)
    (fv : QBatch → ℚ) (hnr : 1 ≤ nr) (hlen : ics.length = nr)
    (hsolver : ∀ p ch, ext.solver p ch
      = Except.ok (ch.map fc, ch.map fv)) :
    (jointRaw ext acq bounds q nr raw { opts with batch_limit := some nr }
        ppf (some ics) pending).res
      = (jointRaw ext acq bounds q nr raw
          { opts with batch_limit := some 1 } ppf (some ics) pending).res
    ∧ (jointRaw ext acq bounds q nr raw { opts with batch_limit := some nr }
        ppf (some ics) pending).res
      = Except.ok (applyPPF ppf (ics.map fc), ics.map fv) := by
  have hA := solveChunksAux_map ext pending ics nr nr fc fv hsolver hnr nr
    0 (by omega)
  have hB := solveChunksAux_map ext pending ics nr 1 fc fv hsolver
    (le_refl 1) nr 0 (by omega)
  have hslice : (ics.drop 0).take (nr - 0) = ics := by
    rw [List.drop_zero, Nat.sub_zero, ← hlen, List.take_length]
  rw [hslice] at hA hB
  have hJ : ∀ (bl : Option Nat),
      (jointRaw ext acq bounds q nr raw { opts with batch_limit := bl } ppf
        (some ics) pending).res
        = match (solveChunks ext pending ics nr (bl.getD nr)).1 with
          | Except.error e => Except.error e
          | Except.ok cv => Except.ok (applyPPF ppf cv.1, cv.2) := by
    intro bl
    simp only [jointRaw, theICs]
    split <;> rfl
  rw [hJ (some nr), hJ (some 1)]
  simp [solveChunks, hA, hB]

/-- C8 witness: a concrete three-restart instance with a pointwise solver
run with batch limits 3 and 1. -/
theorem C8_chunking_witness :
    (1 ≤ 3 ∧ ([[[1]], [[3]], [[3]]] : RBatch).length = 3
      ∧ ∀ p ch, extVal.solver p ch
          = Except.ok (ch.map id,
              ch.map (fun b => ((b.headD []).headD 0))))
    ∧ (jointRaw extVal acqW boundsW 1 3 1
        { batch_limit := some 3 } none (some [[[1]], [[3]], [[3]]])
        none).res
      = (jointRaw extVal acqW boundsW 1 3 1
        { batch_limit := some 1 } none (some [[[1]], [[3]], [[3]]])
        none).res :=
  ⟨⟨by omega, rfl, fun p ch => by simp [extVal, extW]⟩,
    (C8_chunking_invariant extVal acqW boundsW 1 3 1 {} none none
      [[[1]], [[3]], [[3]]] id (fun b => ((b.headD []).headD 0))
      (by omega) rfl (fun p ch => by simp [extVal, extW])).1⟩

/-! Shape preservation through the pipeline. -/

/-- An in-bounds getD with default [] is a member of the list. -/
theorem getD_mem (l : RBatch) (i : Nat) (h : i < l.length) :
    l.getD i [] ∈ l := by
  rw [List.getD_eq_getElem l [] h]
  exact List.getElem_mem h

/-- A wellformed nonempty candidate matrix has the expected two-axis
shape readout. -/
theorem Mat2_shapeOf (q d : Nat) (c : QBatch) (h : Mat2 q d c)
    (hq : 1 ≤ q) : c.length = q ∧ (c.headD []).length = d := by
  refine ⟨h.1, ?_⟩
  cases c with
  | nil =>
    have h1 := h.1
    simp at h1
    omega
  | cons p t => exact h.2 p (List.mem_cons_self p t)

/-- A wellformed nonempty restart batch has the expected three-axis shape
readout. -/
theorem Mat3_shapeOf (n q d : Nat) (t : RBatch) (h1 : t.length = n)
    (h2 : ∀ b ∈ t, Mat2 q d b) (hn : 1 ≤ n) (hq : 1 ≤ q) :
    t.length = n ∧ (t.headD []).length = q
      ∧ ((t.headD []).headD []).length = d := by
  cases t with
  | nil =>
    simp at h1
    omega
  | cons b tl =>
    have hb := Mat2_shapeOf q d b (h2 b (List.mem_cons_self b tl)) hq
    exact ⟨h1, hb.1, hb.2⟩

/-- If the solver preserves sub-batch lengths and wellformedness, the
chunked solver loop returns exactly one candidate row and one value per
remaining restart, all wellformed. -/
theorem solveChunksAux_shape (ext : Ext) (pending : Pending) (bic : RBatch)
    (nr blim qq d : Nat)
    (hsol : ∀ (p : Pending) (ch : RBatch) (out : RBatch × List ℚ),
        ext.solver p ch = Except.ok out → (∀ b ∈ ch, Mat2 qq d b) →
        out.1.length = ch.length ∧ out.2.length = ch.length
          ∧ ∀ b ∈ out.1, Mat2 qq d b)
    (hbic : ∀ b ∈ bic, Mat2 qq d b) (hlen : nr ≤ bic.length)
    (hblim : 1 ≤ blim) :
    ∀ (fuel start : Nat), nr - start ≤ fuel →
      ∀ out, (solveChunksAux ext pending bic nr blim fuel start).1
          = Except.ok out →
        out.1.length = nr - start ∧ out.2.length = nr - start
          ∧ ∀ b ∈ out.1, Mat2 qq d b := by
  intro fuel
  induction fuel with
  | zero =>
    intro start h out hout
    injection hout with h2
    subst h2
    refine ⟨by simp; omega, by simp; omega, by simp⟩
  | succ n ih =>
    intro start h out hout
    by_cases hs : start < nr
    · simp only [solveChunksAux, hs, if_true] at hout
      split at hout
      · exact Except.noConfusion hout
      · rename_i cv hsv
        split at hout
        · exact Except.noConfusion hout
        · rename_i cv2 hr
          injection hout with h2
          subst h2
          have hchunk_mem : ∀ b ∈ (bic.drop start).take
              (min (start + blim) nr - start), Mat2 qq d b :=
            fun b hb =>
              hbic b (List.mem_of_mem_drop (List.mem_of_mem_take hb))
          have hchunk_len : ((bic.drop start).take
              (min (start + blim) nr - start)).length
                = min (start + blim) nr - start := by
            rw [List.length_take, List.length_drop]
            omega
          obtain ⟨e1, e2, e3⟩ := hsol _ _ _ hsv hchunk_mem
          obtain ⟨f1, f2, f3⟩ := ih (start + blim) (by omega) cv2 hr
          refine ⟨?_, ?_, ?_⟩
          · rw [List.length_append, e1, hchunk_len, f1]
            omega
          · rw [List.length_append, e2, hchunk_len, f2]
            omega
          · intro b hb
            rcases List.mem_append.mp hb with hb | hb
            · exact e3 b hb
            · exact f3 b hb
    · simp only [solveChunksAux, hs, if_false] at hout
      injection hout with h2
      subst h2
      refine ⟨by simp; omega, by simp; omega, by simp⟩

/-- A successful joint computation returns one row and one value per
restart, all wellformed, also after post-processing. -/
theorem jointRaw_shape (ext : Ext) (acq : AcqF) (bounds : Bounds)
    (qq nr raw d : Nat) (opts : Options) (ppf : Option (RBatch → RBatch))
    (bicOpt : Option RBatch) (pending : Pending) (bc : RBatch)
    (bv : List ℚ)
    (hok : (jointRaw ext acq bounds qq nr raw opts ppf bicOpt pending).res
      = Except.ok (bc, bv))
    (hIC : Mat3 nr qq d
      (theICs ext acq pending bounds qq nr raw opts bicOpt).1)
    (hbl : 1 ≤ opts.batch_limit.getD nr)
    (hsol : ∀ (p : Pending) (ch : RBatch) (out : RBatch × List ℚ),
        ext.solver p ch = Except.ok out → (∀ b ∈ ch, Mat2 qq d b) →
        out.1.length = ch.length ∧ out.2.length = ch.length
          ∧ ∀ b ∈ out.1, Mat2 qq d b)
    (hppf : ∀ (f : RBatch → RBatch), ppf = some f →
        ∀ (t : RBatch), (∀ b ∈ t, Mat2 qq d b) →
        (f t).length = t.length ∧ ∀ b ∈ f t, Mat2 qq d b) :
    bc.length = nr ∧ bv.length = nr ∧ ∀ b ∈ bc, Mat2 qq d b := by
  simp only [jointRaw] at hok
  split at hok
  · exact Except.noConfusion hok
  · rename_i cv hseq
    injection hok with h2
    have hb : bc = applyPPF ppf cv.1 := (congrArg Prod.fst h2).symm
    have hv : bv = cv.2 := (congrArg Prod.snd h2).symm
    subst hb
    subst hv
    obtain ⟨s1, s2, s3⟩ := solveChunksAux_shape ext pending
      (theICs ext acq pending bounds qq nr raw opts bicOpt).1 nr
      (opts.batch_limit.getD nr) qq d hsol hIC.2 (le_of_eq hIC.1.symm)
      hbl nr 0 (by omega) cv hseq
    rw [Nat.sub_zero] at s1 s2
    cases hp : ppf with
    | none =>
      exact ⟨by simpa [applyPPF] using s1, s2, by simpa [applyPPF] using s3⟩
    | some f =>
      obtain ⟨p1, p2⟩ := hppf f hp cv.1 s3
      refine ⟨?_, s2, ?_⟩
      · rw [applyPPF, p1, s1]
      · rw [applyPPF]
        exact p2

/-- A successful sequential loop adds exactly one wellformed point and one
value per remaining iteration. -/
theorem seqLoop_shape (ext : Ext) (acq : AcqF) (bounds : Bounds)
    (nr raw d : Nat) (opts : Options) (ppf : Option (RBatch → RBatch))
    (base : Pending) (hnr : 1 ≤ nr)
    (hbl : 1 ≤ opts.batch_limit.getD nr)
    (hICs : ∀ p', Mat3 nr 1 d
      (theICs ext acq p' bounds 1 nr raw opts none).1)
    (hsol : ∀ (p : Pending) (ch : RBatch) (out : RBatch × List ℚ),
        ext.solver p ch = Except.ok out → (∀ b ∈ ch, Mat2 1 d b) →
        out.1.length = ch.length ∧ out.2.length = ch.length
          ∧ ∀ b ∈ out.1, Mat2 1 d b)
    (hppf : ∀ (f : RBatch → RBatch), ppf = some f →
        ∀ (t : RBatch), (∀ b ∈ t, Mat2 1 d b) →
        (f t).length = t.length ∧ ∀ b ∈ f t, Mat2 1 d b) :
    ∀ (r : Nat) (cands : QBatch) (vals : List ℚ) (pending : Pending)
      (out : QBatch × List ℚ),
      (seqLoop ext acq bounds nr raw opts ppf base r cands vals
          pending).res = Except.ok out →
      (∀ p ∈ cands, p.length = d) →
      out.1.length = cands.length + r ∧ (∀ p ∈ out.1, p.length = d)
        ∧ out.2.length = vals.length + r := by
  intro r
  induction r with
  | zero =>
    intro cands vals pending out hout hc
    injection hout with h2
    subst h2
    exact ⟨rfl, hc, rfl⟩
  | succ n ih =>
    intro cands vals pending out hout hc
    simp only [seqLoop] at hout
    split at hout
    · exact Except.noConfusion hout
    · rename_i cv hj
      obtain ⟨j1, j2, j3⟩ := jointRaw_shape ext acq bounds 1 nr raw d opts
        ppf none pending cv.1 cv.2 hj (hICs pending) hbl hsol hppf
      have hvne : cv.2 ≠ [] := by
        rw [← List.length_pos]
        omega
      have hlt : argmaxIdx cv.2 < cv.1.length := by
        rw [j1, ← j2]
        exact (argmaxIdx_spec cv.2 hvne).2.1
      have hsel : Mat2 1 d (selectBest cv.1 cv.2).1 :=
        j3 _ (getD_mem cv.1 (argmaxIdx cv.2) hlt)
      obtain ⟨i1, i2, i3⟩ := ih (cands ++ (selectBest cv.1 cv.2).1)
        (vals ++ [(selectBest cv.1 cv.2).2]) _ out hout
        (by
          intro p hp
          rcases List.mem_append.mp hp with hp | hp
          · exact hc p hp
          · exact hsel.2 p hp)
      refine ⟨?_, i2, ?_⟩
      · rw [i1, List.length_append, hsel.1]
        omega
      · rw [i3, List.length_append]
        simp
        omega

/-- C7 (amended): for every valid call (wellformed initial conditions,
shape-preserving solver and post-processing), the returned candidate
tensor has shape (num_restarts, q, d) when return_best_only = False, and
shape (q, d) — the restart axis being dropped by the best-index selection,
not kept as a leading axis of extent one — when return_best_only = True,
in both joint and sequential modes. -/
theorem C7_shape_amended (ext : Ext) (acq : AcqF) (bounds : Bounds)
    (q nr raw d : Nat) (opts : Options) (ppf : Option (RBatch → RBatch))
    (bicOpt : Option RBatch) (pending : Pending)
    (hq : 1 ≤ q) (hnr : 1 ≤ nr)
    (hbl : 1 ≤ opts.batch_limit.getD nr)
    (hICj : Mat3 nr q d
      (theICs ext acq pending bounds q nr raw opts bicOpt).1)
    (hICs : ∀ p', Mat3 nr 1 d
      (theICs ext acq p' bounds 1 nr raw opts none).1)
    (hsol : ∀ (qq : Nat) (p : Pending) (ch : RBatch)
        (out : RBatch × List ℚ),
        ext.solver p ch = Except.ok out → (∀ b ∈ ch, Mat2 qq d b) →
        out.1.length = ch.length ∧ out.2.length = ch.length
          ∧ ∀ b ∈ out.1, Mat2 qq d b)
    (hppf : ∀ (qq : Nat) (f : RBatch → RBatch), ppf = some f →
        ∀ (t : RBatch), (∀ b ∈ t, Mat2 qq d b) →
        (f t).length = t.length ∧ ∀ b ∈ f t, Mat2 qq d b) :
    (∀ r, (optimize_acqf ext acq bounds q nr raw opts ppf bicOpt false
        false pending).res = Except.ok r → shapeOfRes r = [nr, q, d])
    ∧ (∀ r, (optimize_acqf ext acq bounds q nr raw opts ppf bicOpt true
        false pending).res = Except.ok r → shapeOfRes r = [q, d])
    ∧ (∀ r, (optimize_acqf ext acq bounds q nr raw opts ppf bicOpt true
        true pending).res = Except.ok r → shapeOfRes r = [q, d]) := by
  refine ⟨?_, ?_, ?_⟩
  · intro r hr
    simp only [optimize_acqf, Bool.false_eq_true, if_false] at hr
    split at hr
    · exact Except.noConfusion hr
    · rename_i cv hj
      injection hr with h2
      subst h2
      obtain ⟨j1, j2, j3⟩ := jointRaw_shape ext acq bounds q nr raw d opts
        ppf bicOpt pending cv.1 cv.2 hj hICj hbl (hsol q) (hppf q)
      obtain ⟨m1, m2, m3⟩ := Mat3_shapeOf nr q d cv.1 j1 j3 hnr hq
      show [cv.1.length, (cv.1.headD []).length,
        ((cv.1.headD []).headD []).length] = [nr, q, d]
      rw [m1, m2, m3]
  · intro r hr
    simp only [optimize_acqf, Bool.false_eq_true, if_false, if_true] at hr
    split at hr
    · exact Except.noConfusion hr
    · rename_i cv hj
      injection hr with h2
      subst h2
      obtain ⟨j1, j2, j3⟩ := jointRaw_shape ext acq bounds q nr raw d opts
        ppf bicOpt pending cv.1 cv.2 hj hICj hbl (hsol q) (hppf q)
      have hvne : cv.2 ≠ [] := by
        rw [← List.length_pos]
        omega
      have hlt : argmaxIdx cv.2 < cv.1.length := by
        rw [j1, ← j2]
        exact (argmaxIdx_spec cv.2 hvne).2.1
      have hsel : Mat2 q d (selectBest cv.1 cv.2).1 :=
        j3 _ (getD_mem cv.1 (argmaxIdx cv.2) hlt)
      obtain ⟨m1, m2⟩ := Mat2_shapeOf q d (selectBest cv.1 cv.2).1 hsel hq
      show [(selectBest cv.1 cv.2).1.length,
        ((selectBest cv.1 cv.2).1.headD []).length] = [q, d]
      rw [m1, m2]
  · intro r hr
    simp only [optimize_acqf, Bool.not_true, Bool.false_eq_true, if_false,
      if_true] at hr
    split at hr
    · exact Except.noConfusion hr
    · rename_i cv hs
      injection hr with h2
      subst h2
      obtain ⟨i1, i2, i3⟩ := seqLoop_shape ext acq bounds nr raw d opts ppf
        pending hnr hbl hICs (hsol 1) (hppf 1) q [] [] pending cv hs
        (by simp)
      have hcne : cv.1 ≠ [] := by
        rw [← List.length_pos]
        omega
      have hhead : (cv.1.headD []).length = d := by
        cases hcv : cv.1 with
        | nil => exact absurd hcv hcne
        | cons p t =>
          refine i2 p ?_
          rw [hcv]
          exact List.mem_cons_self p t
      rw [List.length_nil, Nat.zero_add] at i1
      show [cv.1.length, (cv.1.headD []).length] = [q, d]
      rw [i1, hhead]

/-- C7 witness: a concrete q = 2, d = 1, single-restart instance run in all
three modes; the best-only shapes are (2, 1) and the all-restarts shape is
(1, 2, 1). -/
theorem C7_shape_witness :
    (∀ p', Mat3 1 1 1 (theICs extW acqW p' boundsW 1 1 1 {} none).1)
    ∧ (∀ r, (optimize_acqf extW acqW boundsW 2 1 1 {} none none false false
        none).res = Except.ok r → shapeOfRes r = [1, 2, 1])
    ∧ (∀ r, (optimize_acqf extW acqW boundsW 2 1 1 {} none none true false
        none).res = Except.ok r → shapeOfRes r = [2, 1])
    ∧ (∀ r, (optimize_acqf extW acqW boundsW 2 1 1 {} none none true true
        none).res = Except.ok r → shapeOfRes r = [2, 1]) := by
  have hsol : ∀ (qq : Nat) (p : Pending) (ch : RBatch)
      (out : RBatch × List ℚ),
      extW.solver p ch = Except.ok out → (∀ b ∈ ch, Mat2 qq 1 b) →
      out.1.length = ch.length ∧ out.2.length = ch.length
        ∧ ∀ b ∈ out.1, Mat2 qq 1 b := by
    intro qq p ch out hout hm
    injection hout with h2
    subst h2
    exact ⟨rfl, by simp, hm⟩
  have hppf : ∀ (qq : Nat) (f : RBatch → RBatch),
      (none : Option (RBatch → RBatch)) = some f →
      ∀ (t : RBatch), (∀ b ∈ t, Mat2 qq 1 b) →
      (f t).length = t.length ∧ ∀ b ∈ f t, Mat2 qq 1 b := by
    intro qq f h
    exact Option.noConfusion h
  have hICs : ∀ p', Mat3 1 1 1 (theICs extW acqW p' boundsW 1 1 1 {}
      none).1 := by
    intro p'
    show Mat3 1 1 1 [[[0]]]
    decide
  have h := C7_shape_amended extW acqW boundsW 2 1 1 1 {} none none none
    (by omega) (by omega) (by decide) (by decide) hICs hsol hppf
  exact ⟨hICs, h.1, h.2.1, h.2.2⟩

/-- C7 counterexample: a joint best-only call returns a candidate tensor of
shape (q, d) = (2, 1) — integer indexing at the best restart drops the
restart axis — not the claimed shape (1, q, d) = (1, 2, 1). -/
theorem C7_counterexample :
    (optimize_acqf extW acqW boundsW 2 1 1 {} none none true false
        none).res = Except.ok (Res.best [[0], [0]] 0)
    ∧ shapeOfRes (Res.best [[0], [0]] 0) = [2, 1]
    ∧ ([2, 1] : List Nat) ≠ [1, 2, 1] := by
  refine ⟨rfl, rfl, by decide⟩

end BoTorchOptim
